import Mathlib

/-!
Shallow embedding of the tile loading and caching core of deck.gl-raster
(src/tile-cache.ts, src/tile-prioritizer.ts, src/tile-loader.ts,
src/web-mercator.ts).

Conventions used throughout:
- byte sizes, access counters, generations and times are `Nat` (the source
  stores them in JS numbers, always non-negative integers in these roles);
- tile coordinates and zoom levels are `Int` (`Math.floor` of a JS number);
- JS `Map` is an insertion-ordered association list; `Map.set` on an
  existing key replaces the entry in place, preserving its position;
- JS `Set` is a duplicate-free list; `Set.delete` removes the element;
- a JS value that can be `undefined`/`null`/`NaN` is an `Option`;
- the `while` loop of `LRUTileCache.set` is modelled with fuel: the fuel is
  the entry count, enough for every terminating run, and a run of the loop
  in which an iteration makes no progress (the source would loop forever,
  because `evictLRU` commits nothing when the selected key is the empty
  string, which is falsy) yields `none`;
- continuous arithmetic (`Math.tan`, `Math.log`, `Math.exp`, `Math.asinh`,
  `Math.atan`, `Math.PI`) is modelled over the reals.
-/

/-! ## LRU tile cache (src/tile-cache.ts) -/

/-- A cache entry, from `interface CacheEntry<T>`. -/
structure CacheEntry (T : Type) where
  key : String
  value : T
  size : Nat
  lastAccess : Nat
  generation : Nat
deriving DecidableEq

/-- Cache statistics, from `interface TileCacheStats`. -/
structure TileCacheStats where
  entries : Nat
  totalSize : Nat
  maxSize : Nat
  hits : Nat
  misses : Nat
  evictions : Nat
deriving DecidableEq

/-- The private fields of `class LRUTileCache<T>`. -/
structure CacheState (T : Type) where
  entries : List (CacheEntry T)
  accessCounter : Nat
  totalSize : Nat
  maxSize : Nat
  stats : TileCacheStats
deriving DecidableEq

/-- The constructor: empty map, zero counters, `maxSize = maxSizeMB * 1024 * 1024`. -/
def newCache (T : Type) (maxSizeMB : Nat) : CacheState T :=
  { entries := []
    accessCounter := 0
    totalSize := 0
    maxSize := maxSizeMB * 1024 * 1024
    stats :=
      { entries := 0
        totalSize := 0
        maxSize := maxSizeMB * 1024 * 1024
        hits := 0
        misses := 0
        evictions := 0 } }

/-- `updateStats`: copy the live entry count and total size into the stats. -/
def updateStats {T : Type} (st : CacheState T) : CacheState T :=
  { st with
    stats := { st.stats with entries := st.entries.length, totalSize := st.totalSize } }

/-- `get(key)`: on hit bump `lastAccess` to `++accessCounter` and count a hit,
on miss count a miss. Returns the JS return value paired with the new state. -/
def cacheGet {T : Type} (key : String) (st : CacheState T) : Option T × CacheState T :=
  match st.entries.find? (fun e => e.key == key) with
  | some e =>
      let counter := st.accessCounter + 1
      (some e.value,
        { st with
          entries := st.entries.map fun e2 =>
            if e2.key == key then { e2 with lastAccess := counter } else e2
          accessCounter := counter
          stats := { st.stats with hits := st.stats.hits + 1 } })
  | none =>
      (none, { st with stats := { st.stats with misses := st.stats.misses + 1 } })

/-- `has(key)`: no statistics effect. -/
def cacheHas {T : Type} (key : String) (st : CacheState T) : Bool :=
  st.entries.any (fun e => e.key == key)

/-- Replace the first entry satisfying `p` (JS `Map.set` on an existing key
keeps the entry's position). -/
def replaceFirst {T : Type} (p : CacheEntry T → Bool) (x : CacheEntry T) :
    List (CacheEntry T) → List (CacheEntry T)
  | [] => []
  | a :: as => if p a then x :: as else a :: replaceFirst p x as

/-- The fold of `evictLRU`: the key of the first entry whose `lastAccess` is
strictly below every earlier one (`minAccess` starts at `Infinity`, so the
first entry is always taken). -/
def selectLRUKey {T : Type} (entries : List (CacheEntry T)) : Option String :=
  (entries.foldl
    (fun acc e =>
      match acc with
      | none => some (e.key, e.lastAccess)
      | some (k, m) => if e.lastAccess < m then some (e.key, e.lastAccess) else some (k, m))
    none).map (fun kv => kv.1)

/-- `evictLRU()`: remove the selected entry and count an eviction, but only
when the selected key is truthy — the empty string is falsy in JS, so an
empty-string victim commits nothing. -/
def evictLRU {T : Type} (st : CacheState T) : CacheState T :=
  match selectLRUKey st.entries with
  | none => st
  | some lruKey =>
      if lruKey = "" then st
      else
        match st.entries.find? (fun e => e.key == lruKey) with
        | none => st
        | some e =>
            { st with
              entries := st.entries.eraseP (fun e2 => e2.key == lruKey)
              totalSize := st.totalSize - e.size
              stats := { st.stats with evictions := st.stats.evictions + 1 } }

/-- The `while (totalSize > maxSize && entries.size > 1) evictLRU()` loop of
`set`, with fuel. A terminating source run returns `some`; an iteration that
makes no progress (the source spins forever) returns `none`. -/
def evictLoop {T : Type} : Nat → CacheState T → Option (CacheState T)
  | 0, st =>
      if st.maxSize < st.totalSize ∧ 1 < st.entries.length then none else some st
  | n + 1, st =>
      if st.maxSize < st.totalSize ∧ 1 < st.entries.length then
        let st2 := evictLRU st
        if st2.entries.length < st.entries.length then evictLoop n st2 else none
      else some st

/-- `set(key, value, size, generation)`: subtract a replaced entry's size,
write the entry with `lastAccess = ++accessCounter`, add the new size, then
evict LRU entries while over the limit, then `updateStats`. `none` models the
source looping forever in the eviction loop. -/
def cacheSet {T : Type} (key : String) (value : T) (size : Nat) (generation : Nat)
    (st : CacheState T) : Option (CacheState T) :=
  let st1 :=
    match st.entries.find? (fun e => e.key == key) with
    | some old => { st with totalSize := st.totalSize - old.size }
    | none => st
  let counter := st1.accessCounter + 1
  let entry : CacheEntry T :=
    { key := key, value := value, size := size, lastAccess := counter
      generation := generation }
  let entries :=
    if st1.entries.any (fun e => e.key == key) then
      replaceFirst (fun e => e.key == key) entry st1.entries
    else st1.entries ++ [entry]
  let st2 :=
    { st1 with
      entries := entries
      accessCounter := counter
      totalSize := st1.totalSize + size }
  (evictLoop st2.entries.length st2).map updateStats

/-- `delete(key)`: subtract the entry's size, remove it, `updateStats`. -/
def cacheDelete {T : Type} (key : String) (st : CacheState T) : CacheState T :=
  match st.entries.find? (fun e => e.key == key) with
  | some e =>
      updateStats
        { st with
          totalSize := st.totalSize - e.size
          entries := st.entries.eraseP (fun e2 => e2.key == key) }
  | none => st

/-- `clear()`: drop all entries, reset size and access counter, `updateStats`
(cumulative hit/miss/eviction counters are kept). -/
def cacheClear {T : Type} (st : CacheState T) : CacheState T :=
  updateStats { st with entries := [], totalSize := 0, accessCounter := 0 }

/-- `invalidateOldGenerations(currentGeneration)`: collect the keys of the
entries with an older generation, then delete each. -/
def invalidateOldGenerations {T : Type} (currentGeneration : Nat)
    (st : CacheState T) : CacheState T :=
  let keysToDelete :=
    (st.entries.filter (fun e => decide (e.generation < currentGeneration))).map
      (fun e => e.key)
  keysToDelete.foldl (fun s k => cacheDelete k s) st

/-- A public cache operation, for statements over operation sequences. -/
inductive CacheOp (T : Type) where
  | set (key : String) (value : T) (size : Nat) (generation : Nat)
  | get (key : String)
  | delete (key : String)
  | clear
  | invalidateOldGenerations (currentGeneration : Nat)

/-- Run one public cache operation; `none` when `set` never completes. -/
def applyCacheOp {T : Type} (op : CacheOp T) (st : CacheState T) :
    Option (CacheState T) :=
  match op with
  | .set key value size generation => cacheSet key value size generation st
  | .get key => some (cacheGet key st).2
  | .delete key => some (cacheDelete key st)
  | .clear => some (cacheClear st)
  | .invalidateOldGenerations currentGeneration =>
      some (invalidateOldGenerations currentGeneration st)

/-- Run a sequence of public cache operations from `new LRUTileCache(maxSizeMB)`. -/
def runCacheOps (T : Type) (maxSizeMB : Nat) (ops : List (CacheOp T)) :
    Option (CacheState T) :=
  ops.foldl (fun acc op => acc.bind (applyCacheOp op)) (some (newCache T maxSizeMB))

/-- Sum of the sizes of the entries, for the size-accounting invariant. -/
def sumSizes {T : Type} (l : List (CacheEntry T)) : Nat :=
  (l.map (fun e => e.size)).sum

/-! ## Tile prioritizer (src/tile-prioritizer.ts) -/

/-- `interface TileCoord`. Coordinates are `Int`: the source produces them
with `Math.floor` and integer arithmetic. -/
structure TileCoord where
  x : Int
  y : Int
  z : Int
deriving DecidableEq

/-- `tileKey(x, y, z)`: the canonical string `"z/x/y"`. -/
def tileKey (x y z : Int) : String :=
  toString z ++ "/" ++ toString x ++ "/" ++ toString y

/-- JS `parseInt(s, 10)`: skip leading whitespace, take an optional sign,
then the longest digit run; `none` models `NaN` (no digits). -/
def jsParseInt (s : String) : Option Int :=
  let cs := s.data.dropWhile (fun c => c.isWhitespace)
  let signAndRest : Int × List Char :=
    match cs with
    | '-' :: rest => (-1, rest)
    | '+' :: rest => (1, rest)
    | _ => (1, cs)
  let ds := signAndRest.2.takeWhile (fun c => c.isDigit)
  if ds.isEmpty then none
  else some (signAndRest.1 * (ds.foldl (fun a c => 10 * a + (c.toNat - '0'.toNat)) 0 : Nat))

/-- JS `String.prototype.split` with a one-character separator, keeping
empty pieces (structural recursion over the characters, so that concrete
keys evaluate). -/
def splitCharAux (sep : Char) : List Char → List Char → List String
  | [], acc => [String.mk acc.reverse]
  | c :: cs, acc =>
      if c = sep then String.mk acc.reverse :: splitCharAux sep cs []
      else splitCharAux sep cs (c :: acc)

/-- `s.split(sep)` for a one-character separator. -/
def splitChar (sep : Char) (s : String) : List String :=
  splitCharAux sep s.data []

/-- The record `parseTileKey` returns: each field is a `parseInt` result,
`none` standing for JS `NaN`. -/
structure RawTileCoord where
  z : Option Int
  x : Option Int
  y : Option Int
deriving DecidableEq

/-- `parseTileKey(key)`: split on `"/"`; `null` unless there are exactly
three parts, all non-empty (the empty string is falsy); then `parseInt` each
part — the source does not reject `NaN` or extra characters. -/
def parseTileKey (key : String) : Option RawTileCoord :=
  match splitChar '/' key with
  | [z, x, y] =>
      if z = "" ∨ x = "" ∨ y = "" then none
      else some { z := jsParseInt z, x := jsParseInt x, y := jsParseInt y }
  | _ => none

/-- `getParentTile(tile)`: `null` at zoom 0, else floored halving one level
up (Lean's `Int` division is Euclidean, which is `Math.floor(x / 2)` for the
positive divisor 2). -/
def getParentTile (tile : TileCoord) : Option TileCoord :=
  if tile.z = 0 then none
  else some { x := tile.x / 2, y := tile.y / 2, z := tile.z - 1 }

/-- `getParentTile` iterated `d` times (depth 0 is the tile itself); the
ancestor relation used to state the `getChildRegionInParent` claims. -/
def parentIterTile (c : TileCoord) : Nat → Option TileCoord
  | 0 => some c
  | d + 1 => (parentIterTile c d).bind getParentTile

/-- Floored halving iterated `d` times, the coordinate part of `parentIterTile`. -/
def iterHalf (x : Int) : Nat → Int
  | 0 => x
  | d + 1 => iterHalf x d / 2

/-- The region record of `getChildRegionInParent`, over exact (dyadic)
rationals. -/
structure TileRegion where
  x : ℚ
  y : ℚ
  width : ℚ
  height : ℚ
deriving DecidableEq

/-- `getChildRegionInParent(child, parent)`: `null` when `zoomDiff < 0`,
else offsets and size of the child within the parent's unit square. The
source checks only the zoom difference, not containment. -/
def getChildRegionInParent (child parent : TileCoord) : Option TileRegion :=
  let zoomDiff := child.z - parent.z
  if zoomDiff < 0 then none
  else
    let scale : ℚ := 2 ^ zoomDiff.toNat
    let tileSize : ℚ := 1 / scale
    let parentX : ℚ := (child.x : ℚ) / scale
    let parentY : ℚ := (child.y : ℚ) / scale
    some
      { x := parentX - (parent.x : ℚ)
        y := parentY - (parent.y : ℚ)
        width := tileSize
        height := tileSize }

/-- The spec's notion from the claim on `ParseTileKey`, written from its
words: a canonical key is three `/`-separated non-negative decimal integer
components. Used only to state that claim; the source has no such check. -/
def specCanonicalKey (s : String) : Bool :=
  match splitChar '/' s with
  | [a, b, c] =>
      (!a.isEmpty && a.data.all (fun ch => ch.isDigit)) &&
      (!b.isEmpty && b.data.all (fun ch => ch.isDigit)) &&
      (!c.isEmpty && c.data.all (fun ch => ch.isDigit))
  | _ => false

/-! ## Web Mercator projection (src/web-mercator.ts), over the reals -/

/-- `ORIGIN_SHIFT = Math.PI * EARTH_RADIUS`. -/
noncomputable def ORIGIN_SHIFT : ℝ := Real.pi * 6378137

/-- `webMercatorToWGS84(x, y)`. -/
noncomputable def webMercatorToWGS84 (x y : ℝ) : ℝ × ℝ :=
  ((x / ORIGIN_SHIFT) * 180,
   (Real.arctan (Real.exp ((y / ORIGIN_SHIFT) * Real.pi)) * 360) / Real.pi - 90)

/-- `wgs84ToWebMercator(lng, lat)`. -/
noncomputable def wgs84ToWebMercator (lng lat : ℝ) : ℝ × ℝ :=
  ((lng * ORIGIN_SHIFT) / 180,
   ((Real.log (Real.tan (((90 + lat) * Real.pi) / 360)) / (Real.pi / 180)) * ORIGIN_SHIFT) / 180)

/-- `interface ViewportBounds` / the bounds object, in WGS84 degrees. -/
structure ViewportBounds where
  west : ℝ
  east : ℝ
  north : ℝ
  south : ℝ

/-- `lngLatToTile(lng, lat, zoom)`: the slippy-map formula with `Math.floor`,
`Math.asinh` and `Math.tan` over the reals. -/
noncomputable def lngLatToTile (lng lat : ℝ) (zoom : Int) : TileCoord :=
  let n : ℝ := 2 ^ zoom
  let latRad : ℝ := lat * Real.pi / 180
  { x := ⌊((lng + 180) / 360) * n⌋
    y := ⌊((1 - Real.arsinh (Real.tan latRad) / Real.pi) / 2) * n⌋
    z := zoom }

/-- `getViewportCenterTile(bounds, zoom)`: the tile of the bounds midpoint. -/
noncomputable def getViewportCenterTile (bounds : ViewportBounds) (zoom : Int) :
    TileCoord :=
  lngLatToTile ((bounds.west + bounds.east) / 2) ((bounds.north + bounds.south) / 2) zoom

/-- The inclusive integer interval `[a, b]`, as iterated by the `for` loops
of `getVisibleTiles`. -/
def intRangeIncl (a b : Int) : List Int :=
  (List.range (b + 1 - a).toNat).map (fun i => a + (i : Int))

/-- `getVisibleTiles(bounds, zoom)`: every tile in the inclusive rectangle
between the NW and SE corner tiles, x in the outer loop. -/
noncomputable def getVisibleTiles (bounds : ViewportBounds) (zoom : Int) :
    List TileCoord :=
  let nw := lngLatToTile bounds.west bounds.north zoom
  let se := lngLatToTile bounds.east bounds.south zoom
  (intRangeIncl (min nw.x se.x) (max nw.x se.x)).flatMap fun x =>
    (intRangeIncl (min nw.y se.y) (max nw.y se.y)).map fun y =>
      ({ x := x, y := y, z := zoom } : TileCoord)

/-- `interface PrioritizedTile`; `distance` is the squared integer distance. -/
structure PrioritizedTile where
  coord : TileCoord
  key : String
  distance : Int
deriving DecidableEq

/-- `prioritizeTiles(tiles, centerTile)`: map to squared distances, then the
stable ascending sort of JS `Array.prototype.sort` with the comparator
`a.distance - b.distance`. -/
def prioritizeTiles (tiles : List TileCoord) (centerTile : TileCoord) :
    List PrioritizedTile :=
  let prioritized := tiles.map fun tile =>
    let dx := tile.x - centerTile.x
    let dy := tile.y - centerTile.y
    ({ coord := tile, key := tileKey tile.x tile.y tile.z, distance := dx * dx + dy * dy }
      : PrioritizedTile)
  prioritized.mergeSort (fun a b => decide (a.distance ≤ b.distance))

/-! ## Tile loader (src/tile-loader.ts) -/

/-- `enum TileState`. -/
inductive TileState where
  | pending
  | loading
  | loaded
  | error
deriving DecidableEq

/-- `interface TileData<T>`; `error` payloads are opaque strings, `loadTime`
is a millisecond timestamp. -/
structure TileData (T : Type) where
  coord : TileCoord
  key : String
  state : TileState
  data : Option T
  error : Option String
  loadTime : Option Nat
  generation : Nat
deriving DecidableEq

/-- `interface TileLoaderConfig`. -/
structure TileLoaderConfig where
  maxConcurrentLoads : Nat
  maxStartsPerFrame : Nat
  panDebounceMs : Nat
  zoomDebounceMs : Nat
  cacheSizeMB : Nat
  fadeDurationMs : Nat
deriving DecidableEq

/-- `DEFAULT_CONFIG`. -/
def DEFAULT_CONFIG : TileLoaderConfig :=
  { maxConcurrentLoads := 4
    maxStartsPerFrame := 2
    panDebounceMs := 50
    zoomDebounceMs := 150
    cacheSizeMB := 50
    fadeDurationMs := 250 }

/-- The fields of `class TileLoader<T>`. An armed debounce timer is the
`(bounds, zoom)` its callback would pass to `processViewChange`; a cancelled
or absent timer is `none`. The source arms a new zoom timer without
cancelling a previous one (only the handle is overwritten), so timer firing
is modelled as a free event rather than read off these fields. -/
structure LoaderState (T : Type) where
  config : TileLoaderConfig
  cache : CacheState T
  tiles : List (String × TileData T)
  loadQueue : List String
  loadingTiles : List String
  loadGeneration : Nat
  lastZoom : Int
  panTimer : Option (ViewportBounds × Int)
  zoomTimer : Option (ViewportBounds × Int)
  isZooming : Bool

/-- The `TileLoader` constructor (the load callback itself lives outside the
state: completions are delivered as events). -/
def newLoader (T : Type) (config : TileLoaderConfig) : LoaderState T :=
  { config := config
    cache := newCache T config.cacheSizeMB
    tiles := []
    loadQueue := []
    loadingTiles := []
    loadGeneration := 0
    lastZoom := -1
    panTimer := none
    zoomTimer := none
    isZooming := false }

/-- `this.tiles.get(key)`. -/
def mapLookup {T : Type} (m : List (String × TileData T)) (k : String) :
    Option (TileData T) :=
  (m.find? (fun kv => kv.1 == k)).map (fun kv => kv.2)

/-- Mutate the record stored under `k` (JS holds the record by reference). -/
def mapUpdate {T : Type} (m : List (String × TileData T)) (k : String)
    (f : TileData T → TileData T) : List (String × TileData T) :=
  m.map fun kv => if kv.1 == k then (kv.1, f kv.2) else kv

/-- `this.tiles.set(key, v)` for a key not yet present. -/
def mapInsert {T : Type} (m : List (String × TileData T)) (k : String)
    (v : TileData T) : List (String × TileData T) :=
  m ++ [(k, v)]

/-- JS `Set.add`. -/
def setAdd (l : List String) (k : String) : List String :=
  if l.contains k then l else l ++ [k]

/-- JS `Set.delete`. -/
def setDelete (l : List String) (k : String) : List String :=
  l.filter (fun s => s != k)

/-- `handleZoomChange(newZoom)`: bump the generation, record the zoom, clear
the queue, invalidate old cache generations, then reset each in-flight tile
of an older generation to `PENDING` and drop it from the in-flight set. -/
def handleZoomChange {T : Type} (newZoom : Int) (st : LoaderState T) :
    LoaderState T :=
  let st1 :=
    { st with
      loadGeneration := st.loadGeneration + 1
      lastZoom := newZoom
      loadQueue := []
      cache := invalidateOldGenerations (st.loadGeneration + 1) st.cache }
  st1.loadingTiles.foldl
    (fun s key =>
      match mapLookup s.tiles key with
      | some tile =>
          if tile.generation < s.loadGeneration then
            { s with
              tiles := mapUpdate s.tiles key (fun t => { t with state := TileState.pending })
              loadingTiles := setDelete s.loadingTiles key }
          else s
      | none => s)
    st1

/-- `updateViewport(bounds, zoom)`: on a zoom change run `handleZoomChange`
synchronously, set `isZooming` and arm the zoom debounce timer; otherwise
cancel the pending zoom timer and arm the pan debounce timer. The pan timer
is always cancelled first. -/
def updateViewport {T : Type} (bounds : ViewportBounds) (zoom : Int)
    (st : LoaderState T) : LoaderState T :=
  if zoom ≠ st.lastZoom then
    { handleZoomChange zoom st with
      panTimer := none
      isZooming := true
      zoomTimer := some (bounds, zoom) }
  else
    { st with panTimer := some (bounds, zoom), zoomTimer := none }

/-- The queueing loop of `processViewChange`: for each prioritized tile in
order, skip it when cached, queued or in flight; otherwise append its key to
the queue and create a `PENDING` record only when no record exists (an
existing record is left untouched, whatever its state and generation). -/
def enqueueTiles {T : Type} (prioritized : List PrioritizedTile)
    (st : LoaderState T) : LoaderState T :=
  prioritized.foldl
    (fun s pt =>
      if cacheHas pt.key s.cache then s
      else if s.loadQueue.contains pt.key ∨ s.loadingTiles.contains pt.key then s
      else
        let s1 := { s with loadQueue := s.loadQueue ++ [pt.key] }
        if (mapLookup s1.tiles pt.key).isSome then s1
        else
          { s1 with
            tiles := mapInsert s1.tiles pt.key
              { coord := pt.coord
                key := pt.key
                state := TileState.pending
                data := none
                error := none
                loadTime := none
                generation := s1.loadGeneration } })
    st

/-- `processViewChange(bounds, zoom)`: enumerate the visible tiles, order
them center-out, and queue the missing ones. -/
noncomputable def processViewChange {T : Type} (bounds : ViewportBounds)
    (zoom : Int) (st : LoaderState T) : LoaderState T :=
  let visibleTiles := getVisibleTiles bounds zoom
  let centerTile := getViewportCenterTile bounds zoom
  enqueueTiles (prioritizeTiles visibleTiles centerTile) st

/-- The synchronous prefix of `startTileLoad(tile)`: mark the record
`LOADING` and add its key to the in-flight set (the callback's completion is
a separate event, `onLoadComplete`). -/
def startTileLoadSync {T : Type} (tile : TileData T) (st : LoaderState T) :
    LoaderState T :=
  { st with
    tiles := mapUpdate st.tiles tile.key (fun t => { t with state := TileState.loading })
    loadingTiles := setAdd st.loadingTiles tile.key }

/-- The `while` loop of `processQueue`, with fuel (the queue length bounds
its iterations: each one shifts the queue). -/
def drainQueue {T : Type} : Nat → Nat → LoaderState T → LoaderState T
  | 0, _, st => st
  | n + 1, starts, st =>
      if st.loadingTiles.length < st.config.maxConcurrentLoads ∧
          st.loadQueue ≠ [] ∧ starts < st.config.maxStartsPerFrame then
        match st.loadQueue with
        | [] => st
        | key :: rest =>
            let st1 := { st with loadQueue := rest }
            match mapLookup st1.tiles key with
            | none => drainQueue n starts st1
            | some tile =>
                if tile.generation < st1.loadGeneration then drainQueue n starts st1
                else drainQueue n (starts + 1) (startTileLoadSync tile st1)
      else st

/-- `processQueue()`: do nothing while zooming, else start queued loads under
the concurrency cap and the per-frame start cap. -/
def processQueue {T : Type} (st : LoaderState T) : LoaderState T :=
  if st.isZooming then st else drainQueue st.loadQueue.length 0 st

/-- The default `estimateTileSize`: 1 MiB per tile. -/
def ESTIMATED_TILE_SIZE : Nat := 1024 * 1024

/-- The completion handler of `startTileLoad` (everything after the `await`):
a stale completion (captured generation differs from the current one) only
removes the key from the in-flight set; a current success writes the payload
into the record and admits it to the cache; a current failure records the
error. `none` models the (unreachable in source runs) divergence of
`cache.set`. -/
def onLoadComplete {T : Type} (key : String) (gen : Nat) (result : Except String T)
    (now : Nat) (st : LoaderState T) : Option (LoaderState T) :=
  match result with
  | Except.ok data =>
      if gen ≠ st.loadGeneration then
        some { st with loadingTiles := setDelete st.loadingTiles key }
      else
        let st1 :=
          { st with
            tiles := mapUpdate st.tiles key fun t =>
              { t with data := some data, state := TileState.loaded, loadTime := some now } }
        match cacheSet key data ESTIMATED_TILE_SIZE gen st1.cache with
        | some cache =>
            some { st1 with cache := cache, loadingTiles := setDelete st1.loadingTiles key }
        | none => none
  | Except.error e =>
      if gen ≠ st.loadGeneration then
        some { st with loadingTiles := setDelete st.loadingTiles key }
      else
        some
          { st with
            tiles := mapUpdate st.tiles key fun t =>
              { t with state := TileState.error, error := some e }
            loadingTiles := setDelete st.loadingTiles key }

/-- `getTile(key)`: consult the cache first; on a hit with a stored record,
reflect the payload and `LOADED` into the record and return it; on a hit
without a record, fall through to `tiles.get(key)` — which is `none`; on a
miss return the stored record or `none`. Returns the value paired with the
new state (the cache `get` mutates statistics and recency). -/
def getTileFn {T : Type} (key : String) (st : LoaderState T) :
    Option (TileData T) × LoaderState T :=
  let got := cacheGet key st.cache
  let st1 := { st with cache := got.2 }
  match got.1 with
  | some value =>
      match mapLookup st1.tiles key with
      | some t =>
          let t2 := { t with data := some value, state := TileState.loaded }
          (some t2, { st1 with tiles := mapUpdate st1.tiles key (fun _ => t2) })
      | none => (mapLookup st1.tiles key, st1)
  | none => (mapLookup st1.tiles key, st1)

/-- `clear()`: drop records, queue, in-flight set and cache contents, and
reset `loadGeneration` to 0. -/
def clearLoader {T : Type} (st : LoaderState T) : LoaderState T :=
  { st with
    tiles := []
    loadQueue := []
    loadingTiles := []
    cache := cacheClear st.cache
    loadGeneration := 0 }

/-- A public loader event: the driver API plus timer firings and load
completions. Timer firings are free events (an over-approximation of the
source's timers, which can also fire a superseded zoom callback). -/
inductive LoaderOp (T : Type) where
  | updateViewport (bounds : ViewportBounds) (zoom : Int)
  | firePanTimer (bounds : ViewportBounds) (zoom : Int)
  | fireZoomTimer (bounds : ViewportBounds) (zoom : Int)
  | processQueue
  | loadComplete (key : String) (gen : Nat) (result : Except String T) (now : Nat)
  | getTile (key : String)
  | clear

/-- Apply one loader event. `none` only for the divergence of a cache `set`
inside a completion. -/
noncomputable def applyLoaderOp {T : Type} (op : LoaderOp T) (st : LoaderState T) :
    Option (LoaderState T) :=
  match op with
  | .updateViewport bounds zoom => some (updateViewport bounds zoom st)
  | .firePanTimer bounds zoom => some (processViewChange bounds zoom st)
  | .fireZoomTimer bounds zoom =>
      some (processViewChange bounds zoom { st with isZooming := false })
  | .processQueue => some (processQueue st)
  | .loadComplete key gen result now => onLoadComplete key gen result now st
  | .getTile key => some (getTileFn key st).2
  | .clear => some (clearLoader st)

/-! ## Named states and operation lists used by concrete statements -/

/-- The cache invariants of the byte-budget claim: exact size accounting and
the byte budget (or a single, possibly oversized, entry). -/
def CacheInv {T : Type} (st : CacheState T) : Prop :=
  st.totalSize = sumSizes st.entries ∧
    (st.totalSize ≤ st.maxSize ∨ st.entries.length = 1)

/-- All-zero viewport bounds: the degenerate viewport at (0, 0), whose tile
math is exact. -/
def boundsZero : ViewportBounds :=
  { west := 0, east := 0, north := 0, south := 0 }

/-- One `set` on a fresh 1 MB cache, for the byte-budget witness. -/
def c1ops : List (CacheOp Nat) :=
  [CacheOp.set "a" 7 5 0]

/-- The state `runCacheOps Nat 1 c1ops` reaches. -/
def c1St : CacheState Nat :=
  { entries := [{ key := "a", value := 7, size := 5, lastAccess := 1, generation := 0 }]
    accessCounter := 1
    totalSize := 5
    maxSize := 1048576
    stats :=
      { entries := 1, totalSize := 5, maxSize := 1048576, hits := 0, misses := 0
        evictions := 0 } }

/-- The S1 scenario of the spec: three 400 KiB inserts, a `Get`, and a fourth
insert, on a 1 MB cache. -/
def s1ops : List (CacheOp Unit) :=
  [CacheOp.set "0/0/0" () 409600 0,
   CacheOp.set "0/0/1" () 409600 0,
   CacheOp.set "0/0/2" () 409600 0,
   CacheOp.get "0/0/0",
   CacheOp.set "0/0/3" () 409600 0]

/-- An in-flight record at generation 0, for the stale-discard witness. -/
def recW : TileData Nat :=
  { coord := { x := 3, y := 4, z := 5 }, key := "5/3/4", state := TileState.loading
    data := none, error := none, loadTime := none, generation := 0 }

/-- A loader at generation 2 with `recW` still in flight, for the
stale-discard witness. -/
def stW : LoaderState Nat :=
  { newLoader Nat DEFAULT_CONFIG with
    loadGeneration := 2
    tiles := [("5/3/4", recW)]
    loadingTiles := ["5/3/4"] }

/-- A pending record left at generation 0, as `handleZoomChange` leaves an
in-flight tile after a zoom change. -/
def pendRec : TileData Nat :=
  { coord := { x := 0, y := 0, z := 0 }, key := "0/0/0", state := TileState.pending
    data := none, error := none, loadTime := none, generation := 0 }

/-- A loader at generation 1 still holding `pendRec` from generation 0: the
state `processViewChange` mishandles. -/
def stF : LoaderState Nat :=
  { newLoader Nat DEFAULT_CONFIG with
    loadGeneration := 1
    tiles := [("0/0/0", pendRec)] }

/-- A loader whose cache holds a payload for `"7/1/2"` while the tile map has
no record for it (reachable via `clear()` racing a completion at an equal
generation). -/
def stG : LoaderState Nat :=
  { newLoader Nat DEFAULT_CONFIG with
    cache := (cacheSet "7/1/2" 42 100 0 (newCache Nat 50)).getD (newCache Nat 50) }

/-! ## Cache lemmas: size accounting and the byte budget -/

theorem sumSizes_nil {T : Type} : sumSizes ([] : List (CacheEntry T)) = 0 := rfl

theorem sumSizes_cons {T : Type} (a : CacheEntry T) (l : List (CacheEntry T)) :
    sumSizes (a :: l) = a.size + sumSizes l := by
  simp [sumSizes]

theorem sumSizes_append {T : Type} (l1 l2 : List (CacheEntry T)) :
    sumSizes (l1 ++ l2) = sumSizes l1 + sumSizes l2 := by
  simp [sumSizes]

theorem mem_size_le_sum {T : Type} {e : CacheEntry T} :
    ∀ {l : List (CacheEntry T)}, e ∈ l → e.size ≤ sumSizes l := by
  intro l h
  induction l with
  | nil => cases h
  | cons a as ih =>
      rcases List.mem_cons.mp h with rfl | hmem
      · rw [sumSizes_cons]; omega
      · rw [sumSizes_cons]; have := ih hmem; omega

theorem find?_eraseP_sum {T : Type} {p : CacheEntry T → Bool} {e : CacheEntry T} :
    ∀ {l : List (CacheEntry T)}, l.find? p = some e →
      sumSizes (l.eraseP p) + e.size = sumSizes l ∧ (l.eraseP p).length + 1 = l.length := by
  intro l
  induction l with
  | nil => intro h; cases h
  | cons a as ih =>
      intro h
      by_cases hp : p a
      · rw [List.find?_cons_of_pos _ hp] at h
        obtain rfl : a = e := by injection h
        rw [List.eraseP_cons_of_pos hp]
        constructor
        · rw [sumSizes_cons]; omega
        · simp
      · rw [List.find?_cons_of_neg _ hp] at h
        rw [List.eraseP_cons_of_neg hp]
        obtain ⟨hs, hl⟩ := ih h
        constructor
        · rw [sumSizes_cons, sumSizes_cons]; omega
        · simp only [List.length_cons]; omega

theorem find?_replaceFirst_sum {T : Type} {p : CacheEntry T → Bool}
    {old : CacheEntry T} (x : CacheEntry T) :
    ∀ {l : List (CacheEntry T)}, l.find? p = some old →
      sumSizes (replaceFirst p x l) + old.size = sumSizes l + x.size ∧
      (replaceFirst p x l).length = l.length := by
  intro l
  induction l with
  | nil => intro h; cases h
  | cons a as ih =>
      intro h
      by_cases hp : p a
      · rw [List.find?_cons_of_pos _ hp] at h
        obtain rfl : a = old := by injection h
        simp only [replaceFirst, if_pos hp]
        constructor
        · rw [sumSizes_cons, sumSizes_cons]; omega
        · simp
      · rw [List.find?_cons_of_neg _ hp] at h
        simp only [replaceFirst, if_neg hp]
        obtain ⟨hs, hl⟩ := ih h
        constructor
        · rw [sumSizes_cons, sumSizes_cons]; omega
        · simp only [List.length_cons]; omega

theorem sumSizes_map_of_size_eq {T : Type} {f : CacheEntry T → CacheEntry T}
    (hf : ∀ e, (f e).size = e.size) :
    ∀ (l : List (CacheEntry T)), sumSizes (l.map f) = sumSizes l := by
  intro l
  induction l with
  | nil => rfl
  | cons a as ih => simp only [List.map_cons, sumSizes_cons, hf, ih]

theorem evictLRU_maxSize {T : Type} (st : CacheState T) :
    (evictLRU st).maxSize = st.maxSize := by
  unfold evictLRU
  split
  · rfl
  · split
    · rfl
    · split
      · rfl
      · rfl

theorem evictLRU_sum {T : Type} {st : CacheState T}
    (h : st.totalSize = sumSizes st.entries) :
    (evictLRU st).totalSize = sumSizes (evictLRU st).entries := by
  unfold evictLRU
  split
  · exact h
  · split
    · exact h
    · split
      · exact h
      · rename_i k hne e hf
        obtain ⟨hs, _⟩ := find?_eraseP_sum hf
        have hle := mem_size_le_sum (List.mem_of_find?_eq_some hf)
        dsimp only
        omega

theorem evictLRU_length {T : Type} (st : CacheState T) :
    (evictLRU st).entries.length = st.entries.length ∨
      (evictLRU st).entries.length + 1 = st.entries.length := by
  unfold evictLRU
  split
  · left; rfl
  · split
    · left; rfl
    · split
      · left; rfl
      · rename_i k hne e hf
        right
        exact (find?_eraseP_sum hf).2

theorem evictLoop_some_inv {T : Type} :
    ∀ (fuel : Nat) (st st2 : CacheState T), evictLoop fuel st = some st2 →
      st.totalSize = sumSizes st.entries → 1 ≤ st.entries.length →
      st2.totalSize = sumSizes st2.entries ∧ st2.maxSize = st.maxSize ∧
        (st2.totalSize ≤ st2.maxSize ∨ st2.entries.length = 1) := by
  intro fuel
  induction fuel with
  | zero =>
      intro st st2 h hsum hlen
      unfold evictLoop at h
      split at h
      · cases h
      · obtain rfl : st = st2 := by injection h
        refine ⟨hsum, rfl, ?_⟩
        omega
  | succ n ih =>
      intro st st2 h hsum hlen
      unfold evictLoop at h
      split at h
      · rename_i hcond
        dsimp only at h
        split at h
        · rename_i hprog
          have hsum2 := evictLRU_sum hsum
          have hmax2 := evictLRU_maxSize st
          have hlen2 : 1 ≤ (evictLRU st).entries.length := by
            rcases evictLRU_length st with he | he <;> omega
          obtain ⟨a, b, c⟩ := ih (evictLRU st) st2 h hsum2 hlen2
          exact ⟨a, by rw [b, hmax2], c⟩
        · cases h
      · obtain rfl : st = st2 := by injection h
        refine ⟨hsum, rfl, ?_⟩
        rename_i hcond
        omega

theorem updateStats_inv {T : Type} {st : CacheState T} (h : CacheInv st) :
    CacheInv (updateStats st) := h

theorem cacheGet_inv {T : Type} (key : String) {st : CacheState T}
    (h : CacheInv st) : CacheInv (cacheGet key st).2 := by
  unfold cacheGet
  split
  · obtain ⟨hsum, hbud⟩ := h
    refine ⟨?_, ?_⟩
    · dsimp only
      rw [sumSizes_map_of_size_eq (fun e => by split <;> rfl)]
      exact hsum
    · dsimp only
      rcases hbud with hb | hb
      · left; exact hb
      · right; rw [List.length_map]; exact hb
  · exact h

theorem cacheDelete_inv {T : Type} (key : String) {st : CacheState T}
    (h : CacheInv st) : CacheInv (cacheDelete key st) := by
  unfold cacheDelete
  split
  · rename_i e hf
    obtain ⟨hsum, hbud⟩ := h
    obtain ⟨hs, hl⟩ := find?_eraseP_sum hf
    have hle := mem_size_le_sum (List.mem_of_find?_eq_some hf)
    refine ⟨?_, Or.inl ?_⟩
    · dsimp only [updateStats]
      omega
    · dsimp only [updateStats]
      rcases hbud with hb | hb
      · omega
      · have h0 : (st.entries.eraseP (fun e2 => e2.key == key)).length = 0 := by omega
        have hnil := List.length_eq_zero.mp h0
        rw [hnil, sumSizes_nil] at hs
        omega
  · exact h

theorem cacheClear_inv {T : Type} {st : CacheState T} :
    CacheInv (cacheClear st) := by
  refine ⟨rfl, Or.inl ?_⟩
  exact Nat.zero_le _

theorem invalidateOldGenerations_inv {T : Type} (currentGeneration : Nat)
    {st : CacheState T} (h : CacheInv st) :
    CacheInv (invalidateOldGenerations currentGeneration st) := by
  unfold invalidateOldGenerations
  generalize ((st.entries.filter _).map _ : List String) = ks
  induction ks generalizing st with
  | nil => exact h
  | cons k ks ih => exact ih (cacheDelete_inv k h)

theorem cacheSet_inv {T : Type} {key : String} {value : T} {size generation : Nat}
    {st st2 : CacheState T} (h : CacheInv st)
    (hset : cacheSet key value size generation st = some st2) : CacheInv st2 := by
  obtain ⟨hsum, _⟩ := h
  rcases hf : st.entries.find? (fun e => e.key == key) with _ | old
  · have hany : (st.entries.any fun e => e.key == key) = false := by
      rw [List.any_eq_false]
      intro e he
      have := List.find?_eq_none.mp hf e he
      simpa using this
    simp only [cacheSet, hf, hany, Bool.false_eq_true, if_false] at hset
    obtain ⟨st3, hmap, hst2⟩ := Option.map_eq_some'.mp hset
    have hinv3 := evictLoop_some_inv _ _ _ hmap
      (by
        dsimp only
        rw [sumSizes_append, sumSizes_cons, sumSizes_nil]
        dsimp only
        omega)
      (by simp)
    rw [← hst2]
    exact updateStats_inv ⟨hinv3.1, hinv3.2.2⟩
  · have hmem := List.mem_of_find?_eq_some hf
    have hle := mem_size_le_sum hmem
    have hany : (st.entries.any fun e => e.key == key) = true := by
      rw [List.any_eq_true]
      have hp := List.find?_some hf
      exact ⟨old, hmem, hp⟩
    simp only [cacheSet, hf, hany, if_true] at hset
    obtain ⟨st3, hmap, hst2⟩ := Option.map_eq_some'.mp hset
    obtain ⟨hs, hl⟩ := find?_replaceFirst_sum
      ({ key := key, value := value, size := size,
         lastAccess := st.accessCounter + 1, generation := generation } : CacheEntry T) hf
    dsimp only at hs
    have hinv3 := evictLoop_some_inv _ _ _ hmap
      (by
        dsimp only
        omega)
      (by
        dsimp only
        rw [hl]
        cases hent : st.entries with
        | nil => rw [hent] at hmem; cases hmem
        | cons a as => simp)
    rw [← hst2]
    exact updateStats_inv ⟨hinv3.1, hinv3.2.2⟩

theorem applyCacheOp_inv {T : Type} {op : CacheOp T} {st st2 : CacheState T}
    (h : CacheInv st) (happ : applyCacheOp op st = some st2) : CacheInv st2 := by
  cases op with
  | set key value size generation => exact cacheSet_inv h happ
  | get key =>
      obtain rfl : (cacheGet _ st).2 = st2 := by injection happ
      exact cacheGet_inv _ h
  | delete key =>
      obtain rfl : cacheDelete _ st = st2 := by injection happ
      exact cacheDelete_inv _ h
  | clear =>
      obtain rfl : cacheClear st = st2 := by injection happ
      exact cacheClear_inv
  | invalidateOldGenerations currentGeneration =>
      obtain rfl : invalidateOldGenerations _ st = st2 := by injection happ
      exact invalidateOldGenerations_inv _ h

theorem foldl_bind_none {T : Type} (ops : List (CacheOp T)) :
    ops.foldl (fun acc op => acc.bind (applyCacheOp op)) none = none := by
  induction ops with
  | nil => rfl
  | cons op ops ih => exact ih

theorem foldl_bind_inv {T : Type} :
    ∀ (ops : List (CacheOp T)) (st0 st : CacheState T), CacheInv st0 →
      ops.foldl (fun acc op => acc.bind (applyCacheOp op)) (some st0) = some st →
      CacheInv st := by
  intro ops
  induction ops with
  | nil =>
      intro st0 st h hrun
      obtain rfl : st0 = st := by injection hrun
      exact h
  | cons op ops ih =>
      intro st0 st h hrun
      rw [List.foldl_cons] at hrun
      rcases happ : applyCacheOp op st0 with _ | st1
      · rw [show (some st0).bind (applyCacheOp op) = none by simp [happ]] at hrun
        rw [foldl_bind_none] at hrun
        cases hrun
      · rw [show (some st0).bind (applyCacheOp op) = some st1 by simp [happ]] at hrun
        exact ih st1 st (applyCacheOp_inv h happ) hrun

theorem newCache_inv {T : Type} (maxSizeMB : Nat) : CacheInv (newCache T maxSizeMB) :=
  ⟨rfl, Or.inl (Nat.zero_le _)⟩

/-- C1: byte budget — after every completed public cache operation of any
sequence run from `new LRUTileCache(maxSizeMB)`, either
`totalSize ≤ maxSize` or exactly one entry remains. (The per-operation
invariant holds because `foldl_bind_inv` applies to every prefix of `ops`.) -/
theorem c1_byte_budget {T : Type} (maxSizeMB : Nat) (ops : List (CacheOp T))
    (st : CacheState T) (h : runCacheOps T maxSizeMB ops = some st) :
    st.totalSize ≤ st.maxSize ∨ st.entries.length = 1 :=
  (foldl_bind_inv ops (newCache T maxSizeMB) st (newCache_inv maxSizeMB) h).2

/-- C1 witness: the byte budget at the state reached by one `set` on a fresh
1 MB cache. -/
theorem c1_byte_budget_witness :
    c1St.totalSize ≤ c1St.maxSize ∨ c1St.entries.length = 1 :=
  c1_byte_budget 1 c1ops c1St (by decide)

/-! ## Eviction progress and termination -/

theorem selectLRUKey_fold_mem {T : Type} :
    ∀ (l : List (CacheEntry T)) (acc : Option (String × Nat)) (k : String) (m : Nat),
      l.foldl
        (fun acc2 e =>
          match acc2 with
          | none => some (e.key, e.lastAccess)
          | some (k2, m2) =>
              if e.lastAccess < m2 then some (e.key, e.lastAccess) else some (k2, m2))
        acc = some (k, m) →
      (∃ e ∈ l, e.key = k) ∨ acc = some (k, m) := by
  intro l
  induction l with
  | nil =>
      intro acc k m h
      right
      exact h
  | cons a as ih =>
      intro acc k m h
      rw [List.foldl_cons] at h
      rcases ih _ k m h with ⟨e, he, hk⟩ | hacc
      · exact Or.inl ⟨e, List.mem_cons_of_mem a he, hk⟩
      · rcases acc with _ | ⟨k2, m2⟩
        · left
          refine ⟨a, List.mem_cons_self a as, ?_⟩
          simp only [Option.some.injEq, Prod.mk.injEq] at hacc
          exact hacc.1
        · dsimp only at hacc
          split at hacc
          · left
            refine ⟨a, List.mem_cons_self a as, ?_⟩
            simp only [Option.some.injEq, Prod.mk.injEq] at hacc
            exact hacc.1
          · right
            simp only [Option.some.injEq, Prod.mk.injEq] at hacc
            rw [hacc.1, hacc.2]

theorem selectLRUKey_mem {T : Type} {l : List (CacheEntry T)} {k : String}
    (h : selectLRUKey l = some k) : ∃ e ∈ l, e.key = k := by
  unfold selectLRUKey at h
  obtain ⟨⟨k2, m⟩, hfold, hk⟩ := Option.map_eq_some'.mp h
  dsimp only at hk
  rcases selectLRUKey_fold_mem l none k2 m hfold with ⟨e, he, hek⟩ | habs
  · exact ⟨e, he, by rw [hek, hk]⟩
  · cases habs

theorem selectLRUKey_fold_isSome {T : Type} :
    ∀ (l : List (CacheEntry T)) (p : String × Nat),
      (l.foldl
        (fun acc2 e =>
          match acc2 with
          | none => some (e.key, e.lastAccess)
          | some (k2, m2) =>
              if e.lastAccess < m2 then some (e.key, e.lastAccess) else some (k2, m2))
        (some p)).isSome = true := by
  intro l
  induction l with
  | nil => intro p; rfl
  | cons a as ih =>
      intro p
      rw [List.foldl_cons]
      rcases p with ⟨k2, m2⟩
      dsimp only
      split
      · exact ih _
      · exact ih _

theorem selectLRUKey_isSome {T : Type} {l : List (CacheEntry T)} (h : l ≠ []) :
    (selectLRUKey l).isSome = true := by
  cases l with
  | nil => exact absurd rfl h
  | cons a as =>
      unfold selectLRUKey
      rw [Option.isSome_map', List.foldl_cons]
      exact selectLRUKey_fold_isSome as (a.key, a.lastAccess)

theorem evictLRU_progress {T : Type} {st : CacheState T} (hne : st.entries ≠ [])
    (hkeys : ∀ e ∈ st.entries, e.key ≠ "") :
    (evictLRU st).entries.length + 1 = st.entries.length := by
  obtain ⟨k, hsel⟩ := Option.isSome_iff_exists.mp (selectLRUKey_isSome hne)
  obtain ⟨e0, he0, hk0⟩ := selectLRUKey_mem hsel
  have hkne : ¬(k = "") := by
    rw [← hk0]
    exact hkeys e0 he0
  have hfind : ∃ e, st.entries.find? (fun e2 => e2.key == k) = some e := by
    rw [← Option.isSome_iff_exists, List.find?_isSome]
    exact ⟨e0, he0, by simp [hk0]⟩
  obtain ⟨e, hf⟩ := hfind
  simp only [evictLRU, hsel, if_neg hkne, hf]
  exact (find?_eraseP_sum hf).2

theorem evictLRU_subset {T : Type} (st : CacheState T) :
    ∀ e ∈ (evictLRU st).entries, e ∈ st.entries := by
  unfold evictLRU
  split
  · exact fun e he => he
  · split
    · exact fun e he => he
    · split
      · exact fun e he => he
      · intro e he
        exact (List.eraseP_sublist _).subset he

theorem evictLoop_total {T : Type} :
    ∀ (fuel : Nat) (st : CacheState T), (∀ e ∈ st.entries, e.key ≠ "") →
      st.entries.length ≤ fuel → (evictLoop fuel st).isSome = true := by
  intro fuel
  induction fuel with
  | zero =>
      intro st hk hl
      unfold evictLoop
      split
      · rename_i hcond
        omega
      · rfl
  | succ n ih =>
      intro st hk hl
      unfold evictLoop
      split
      · rename_i hcond
        have hne : st.entries ≠ [] := by
          intro h0
          rw [h0] at hcond
          simp at hcond
        have hprog := evictLRU_progress hne hk
        dsimp only
        rw [if_pos (by omega)]
        apply ih
        · intro e he
          exact hk e (evictLRU_subset st e he)
        · omega
      · rfl

theorem mem_replaceFirst {T : Type} {p : CacheEntry T → Bool} {x : CacheEntry T} :
    ∀ {l : List (CacheEntry T)} {e : CacheEntry T},
      e ∈ replaceFirst p x l → e = x ∨ e ∈ l := by
  intro l
  induction l with
  | nil => intro e he; cases he
  | cons a as ih =>
      intro e he
      unfold replaceFirst at he
      split at he
      · rcases List.mem_cons.mp he with rfl | hmem
        · exact Or.inl rfl
        · exact Or.inr (List.mem_cons_of_mem a hmem)
      · rcases List.mem_cons.mp he with rfl | hmem
        · exact Or.inr (List.mem_cons_self _ _)
        · rcases ih hmem with hx | hmem2
          · exact Or.inl hx
          · exact Or.inr (List.mem_cons_of_mem a hmem2)

/-- C10: termination of `set` under non-empty keys — when every stored key
and the inserted key are non-empty strings, every eviction iteration removes
exactly one entry (`evictLRU_progress`), so the eviction loop of `set`
terminates and `set` completes. -/
theorem c10_set_terminates {T : Type} (st : CacheState T) (key : String)
    (value : T) (size generation : Nat)
    (hkeys : ∀ e ∈ st.entries, e.key ≠ "") (hkey : ¬(key = "")) :
    (cacheSet key value size generation st).isSome = true := by
  rcases hf : st.entries.find? (fun e => e.key == key) with _ | old
  · have hany : (st.entries.any fun e => e.key == key) = false := by
      rw [List.any_eq_false]
      intro e he
      have := List.find?_eq_none.mp hf e he
      simpa using this
    simp only [cacheSet, hf, hany, Bool.false_eq_true, if_false, Option.isSome_map']
    apply evictLoop_total
    · intro e he
      dsimp only at he
      rcases List.mem_append.mp he with hmem | hx
      · exact hkeys e hmem
      · rw [List.mem_singleton.mp hx]
        exact hkey
    · exact Nat.le_refl _
  · have hmem := List.mem_of_find?_eq_some hf
    have hany : (st.entries.any fun e => e.key == key) = true := by
      rw [List.any_eq_true]
      have hp := List.find?_some hf
      exact ⟨old, hmem, hp⟩
    simp only [cacheSet, hf, hany, if_true, Option.isSome_map']
    apply evictLoop_total
    · intro e he
      dsimp only at he
      rcases mem_replaceFirst he with rfl | hmem2
      · exact hkey
      · exact hkeys e hmem2
    · exact Nat.le_refl _

/-- C10 witness: `set` completes on a fresh cache with a non-empty key. -/
theorem c10_set_terminates_witness :
    (cacheSet "a" 7 5 0 (newCache Nat 1)).isSome = true :=
  c10_set_terminates (newCache Nat 1) "a" 7 5 0 (by decide) (by decide)

/-! ## The S1 eviction scenario -/

/-- C5 counterexample: the S1 scenario does not end as the spec expects —
the run from `New(maxSizeMB = 1)` does not leave one eviction, entries
`{0/0/0, 0/0/2, 0/0/3}` and `totalBytes = 1200000` (the third 400 KiB insert
already exceeds the 1 MiB budget, evicting `"0/0/0"` before the `Get`). -/
theorem c5_s1_counterexample :
    (runCacheOps Unit 1 s1ops).map
        (fun st => (st.stats.evictions, st.totalSize, st.entries.map (fun e => e.key)))
      ≠ some (1, 1200000, ["0/0/0", "0/0/2", "0/0/3"]) := by
  decide

/-- C5 amended: the S1 scenario on the code: the third insert overflows
`maxSize = 1048576` and evicts `"0/0/0"`; the `Get` of `"0/0/0"` is then a
miss; the fourth insert evicts `"0/0/1"`. The run ends with two evictions,
entries `{0/0/2, 0/0/3}`, `totalBytes = 819200`, no hits and one miss. -/
theorem c5_s1_run :
    (runCacheOps Unit 1 s1ops).map
        (fun st =>
          (st.stats.evictions, st.totalSize, st.entries.map (fun e => e.key),
            st.stats.hits, st.stats.misses))
      = some (2, 819200, ["0/0/2", "0/0/3"], 0, 1) := by
  decide

/-! ## Stale-result discard (C2) -/

/-- C2: stale discard — a `LoadTile` completion (success or failure) whose
captured generation is below the loader's current `loadGeneration` only
removes the tile's key from the in-flight set: the tile map (hence every
record's state, data, error and loadTime), the cache, the queue and all
other loader fields are unchanged. -/
theorem c2_stale_discard {T : Type} (key : String) (gen : Nat)
    (result : Except String T) (now : Nat) (st : LoaderState T)
    (h : gen < st.loadGeneration) :
    onLoadComplete key gen result now st =
      some { st with loadingTiles := setDelete st.loadingTiles key } := by
  have hne : gen ≠ st.loadGeneration := Nat.ne_of_lt h
  cases result with
  | ok data => simp [onLoadComplete, hne]
  | error e => simp [onLoadComplete, hne]

/-- C2 witness: a stale success at generation 0 against a loader at
generation 2 only clears the in-flight set. -/
theorem c2_stale_discard_witness :
    onLoadComplete "5/3/4" 0 (Except.ok 42) 777 stW =
      some { stW with loadingTiles := setDelete stW.loadingTiles "5/3/4" } :=
  c2_stale_discard "5/3/4" 0 (Except.ok 42) 777 stW (by decide)

/-! ## Generation monotonicity (C6) -/

theorem foldl_loadGeneration_eq {T : Type} {α : Type}
    (f : LoaderState T → α → LoaderState T)
    (hf : ∀ s a, (f s a).loadGeneration = s.loadGeneration) :
    ∀ (l : List α) (s : LoaderState T),
      (l.foldl f s).loadGeneration = s.loadGeneration := by
  intro l
  induction l with
  | nil => intro s; rfl
  | cons a as ih =>
      intro s
      rw [List.foldl_cons, ih, hf]

theorem handleZoomChange_gen {T : Type} (z : Int) (st : LoaderState T) :
    (handleZoomChange z st).loadGeneration = st.loadGeneration + 1 := by
  unfold handleZoomChange
  rw [foldl_loadGeneration_eq]
  intro s k
  dsimp only
  split
  · split
    · rfl
    · rfl
  · rfl

theorem enqueueTiles_gen {T : Type} (pr : List PrioritizedTile)
    (st : LoaderState T) :
    (enqueueTiles pr st).loadGeneration = st.loadGeneration := by
  unfold enqueueTiles
  apply foldl_loadGeneration_eq
  intro s pt
  dsimp only
  split
  · rfl
  · split
    · rfl
    · split
      · rfl
      · rfl

theorem processViewChange_gen {T : Type} (bounds : ViewportBounds) (zoom : Int)
    (st : LoaderState T) :
    (processViewChange bounds zoom st).loadGeneration = st.loadGeneration := by
  unfold processViewChange
  exact enqueueTiles_gen _ _

theorem drainQueue_gen {T : Type} :
    ∀ (fuel starts : Nat) (st : LoaderState T),
      (drainQueue fuel starts st).loadGeneration = st.loadGeneration := by
  intro fuel
  induction fuel with
  | zero => intro starts st; rfl
  | succ n ih =>
      intro starts st
      unfold drainQueue
      split
      · split
        · rfl
        · dsimp only
          split
          · rw [ih]
          · split
            · rw [ih]
            · rw [ih]
              rfl
      · rfl

theorem processQueue_gen {T : Type} (st : LoaderState T) :
    (processQueue st).loadGeneration = st.loadGeneration := by
  unfold processQueue
  split
  · rfl
  · exact drainQueue_gen _ _ _

theorem onLoadComplete_gen {T : Type} {key : String} {gen : Nat}
    {result : Except String T} {now : Nat} {st st2 : LoaderState T}
    (h : onLoadComplete key gen result now st = some st2) :
    st2.loadGeneration = st.loadGeneration := by
  cases result with
  | ok data =>
      simp only [onLoadComplete] at h
      split at h
      · injection h with h2
        subst h2
        rfl
      · split at h
        · injection h with h2
          subst h2
          rfl
        · cases h
  | error e =>
      simp only [onLoadComplete] at h
      split at h
      · injection h with h2
        subst h2
        rfl
      · injection h with h2
        subst h2
        rfl

theorem getTileFn_gen {T : Type} (key : String) (st : LoaderState T) :
    ((getTileFn key st).2).loadGeneration = st.loadGeneration := by
  unfold getTileFn
  dsimp only
  split
  · split
    · rfl
    · rfl
  · rfl

/-- C6 amended: `loadGeneration` is non-decreasing across every public
loader event except `clear()`, which resets it to 0 (so the claim's
monotonicity, which includes `Clear`, fails; see the counterexample). -/
theorem c6_generation_monotone_except_clear {T : Type} (op : LoaderOp T)
    (st st2 : LoaderState T) (h : applyLoaderOp op st = some st2) :
    st.loadGeneration ≤ st2.loadGeneration ∨ op = LoaderOp.clear := by
  cases op with
  | updateViewport bounds zoom =>
      left
      obtain rfl : updateViewport bounds zoom st = st2 := by injection h
      unfold updateViewport
      split
      · have hg : ({ handleZoomChange zoom st with
            panTimer := none, isZooming := true,
            zoomTimer := some (bounds, zoom) } : LoaderState T).loadGeneration =
            (handleZoomChange zoom st).loadGeneration := rfl
        rw [hg, handleZoomChange_gen]
        omega
      · exact Nat.le_refl _
  | firePanTimer bounds zoom =>
      left
      obtain rfl : processViewChange bounds zoom st = st2 := by injection h
      rw [processViewChange_gen]
  | fireZoomTimer bounds zoom =>
      left
      obtain rfl : processViewChange bounds zoom { st with isZooming := false } = st2 := by
        injection h
      rw [processViewChange_gen]
  | processQueue =>
      left
      obtain rfl : processQueue st = st2 := by injection h
      rw [processQueue_gen]
  | loadComplete key gen result now =>
      left
      rw [onLoadComplete_gen h]
  | getTile key =>
      left
      obtain rfl : (getTileFn key st).2 = st2 := by injection h
      rw [getTileFn_gen]
  | clear => right; rfl

/-- C6 witness: the monotonicity disjunct at a concrete event. -/
theorem c6_generation_monotone_witness :
    (newLoader Nat DEFAULT_CONFIG).loadGeneration ≤
        (newLoader Nat DEFAULT_CONFIG).loadGeneration ∨
      (LoaderOp.processQueue : LoaderOp Nat) = LoaderOp.clear :=
  c6_generation_monotone_except_clear LoaderOp.processQueue
    (newLoader Nat DEFAULT_CONFIG) (newLoader Nat DEFAULT_CONFIG) (by rfl)

/-- C6 counterexample: `updateViewport` with a changed zoom raises
`loadGeneration` to 1, and the public `clear()` then resets it to 0 — a
strict decrease, refuting lifetime monotonicity over all public operations. -/
theorem c6_counterexample :
    ((applyLoaderOp (LoaderOp.updateViewport boundsZero 5) (newLoader Nat DEFAULT_CONFIG)).bind
        (fun st1 =>
          (applyLoaderOp LoaderOp.clear st1).map
            (fun st2 => (st1.loadGeneration, st2.loadGeneration)))) = some (1, 0) ∧
      ¬(1 ≤ 0) := by
  constructor
  · rfl
  · decide

/-! ## GetTile cache-hit behaviour (C4) -/

/-- C4 counterexample: the cache holds a payload for `"7/1/2"` but the tile
map has no record, and `getTile` returns none — no thin record is created,
refuting "returns a record (never none) ... creating a thin record when no
record for the key exists". -/
theorem c4_getTile_counterexample :
    cacheHas "7/1/2" stG.cache = true ∧ (getTileFn "7/1/2" stG).1 = none := by
  decide

/-- C4 amended: `getTile` on a cache hit returns the stored record updated to
`LOADED` with the cached payload when a record exists, and none (creating
nothing) when no record exists; on a cache miss it returns the stored record
or none. -/
theorem c4_getTile_behaviour {T : Type} (key : String) (st : LoaderState T) :
    (getTileFn key st).1 =
      match (cacheGet key st.cache).1, mapLookup st.tiles key with
      | some v, some t => some { t with data := some v, state := TileState.loaded }
      | some _, none => none
      | none, r => r := by
  unfold getTileFn
  rcases h1 : (cacheGet key st.cache).1 with _ | v
  · rcases h2 : mapLookup st.tiles key with _ | t <;> simp [h1, h2]
  · rcases h2 : mapLookup st.tiles key with _ | t <;> simp [h1, h2]

/-! ## ParseTileKey (C7) -/

/-- C7 counterexample: `"1/2/x"` is not the canonical serialization of any
tile coordinate (its third component is not a decimal integer), yet
`parseTileKey` does not return none — it returns `{z = 1, x = 2, y = NaN}`. -/
theorem c7_parseTileKey_counterexample :
    specCanonicalKey "1/2/x" = false ∧
      parseTileKey "1/2/x" = some { z := some 1, x := some 2, y := none } := by
  decide

/-- C7 amended: `parseTileKey` returns none exactly when the input does not
split into three non-empty `/`-separated parts; when it returns a
coordinate, the fields are the JS `parseInt` values of the three components,
which may be `NaN` (none) or negative — well-formedness of the components is
not checked. -/
theorem c7_parseTileKey_shape (s : String) :
    (parseTileKey s = none ↔
      ¬∃ p1 p2 p3, splitChar '/' s = [p1, p2, p3] ∧ p1 ≠ "" ∧ p2 ≠ "" ∧ p3 ≠ "") ∧
    (∀ p1 p2 p3, splitChar '/' s = [p1, p2, p3] → p1 ≠ "" → p2 ≠ "" → p3 ≠ "" →
      parseTileKey s =
        some { z := jsParseInt p1, x := jsParseInt p2, y := jsParseInt p3 }) := by
  constructor
  · unfold parseTileKey
    rcases hsp : splitChar '/' s with _ | ⟨a, _ | ⟨b, _ | ⟨c, _ | ⟨d, rest⟩⟩⟩⟩
    · simp
    · simp
    · simp
    · dsimp only
      by_cases he : a = "" ∨ b = "" ∨ c = ""
      · rw [if_pos he]
        constructor
        · rintro _ ⟨p1, p2, p3, hq, h1, h2, h3⟩
          injection hq with q1 hq
          injection hq with q2 hq
          injection hq with q3 _
          subst q1; subst q2; subst q3
          tauto
        · intro _
          rfl
      · rw [if_neg he]
        constructor
        · intro hcon
          cases hcon
        · intro hne
          exfalso
          apply hne
          push_neg at he
          exact ⟨a, b, c, rfl, he.1, he.2.1, he.2.2⟩
    · simp
  · intro p1 p2 p3 hsp h1 h2 h3
    unfold parseTileKey
    rw [hsp]
    dsimp only
    rw [if_neg (by tauto)]

/-! ## Child region in parent (C8) -/

theorem ediv_floor_eq_floor_div (q : ℚ) (n : Nat) (hn : 0 < n) :
    ⌊q⌋ / (n : Int) = ⌊q / (n : ℚ)⌋ := by
  have hnz : (0 : Int) < (n : Int) := by exact_mod_cast hn
  have hnq : (0 : ℚ) < (n : ℚ) := by exact_mod_cast hn
  apply eq_of_forall_le_iff
  intro z
  rw [Int.le_ediv_iff_mul_le hnz, Int.le_floor, Int.le_floor, le_div_iff₀ hnq]
  push_cast
  exact Iff.rfl

theorem iterHalf_eq_floor (x : Int) : ∀ d : Nat, iterHalf x d = ⌊(x : ℚ) / 2 ^ d⌋ := by
  intro d
  induction d with
  | zero =>
      rw [iterHalf, pow_zero, div_one, Int.floor_intCast]
  | succ n ih =>
      rw [iterHalf, ih]
      have h2 : ((2 : Nat) : Int) = (2 : Int) := rfl
      have h2q : ((2 : Nat) : ℚ) = (2 : ℚ) := rfl
      rw [← h2, ediv_floor_eq_floor_div _ 2 (by omega), h2q, div_div, ← pow_succ]

theorem parentIterTile_spec {c : TileCoord} :
    ∀ {d : Nat} {p : TileCoord}, parentIterTile c d = some p →
      p.x = iterHalf c.x d ∧ p.y = iterHalf c.y d ∧ p.z = c.z - d := by
  intro d
  induction d with
  | zero =>
      intro p h
      injection h with h
      subst h
      exact ⟨rfl, rfl, by simp [iterHalf]⟩
  | succ n ih =>
      intro p h
      unfold parentIterTile at h
      obtain ⟨q, hq, hg⟩ := Option.bind_eq_some.mp h
      obtain ⟨hx, hy, hz⟩ := ih hq
      unfold getParentTile at hg
      split at hg
      · cases hg
      · injection hg with hg
        subst hg
        refine ⟨?_, ?_, ?_⟩
        · dsimp only
          rw [hx]
          rfl
        · dsimp only
          rw [hy]
          rfl
        · dsimp only
          rw [hz]
          push_cast
          ring

/-- C8 amended: `getChildRegionInParent` returns none exactly when
`child.z < parent.z` — it performs no containment check, so a same-or-lower
zoom non-ancestor still yields a region (whose offsets then fall outside the
unit square; see the counterexample). When `parent` is an ancestor-or-self of
`child` (an iterate of `getParentTile`), the region has
`width = height = 2 ^ (parent.z − child.z)` and offsets inside `[0, 1)`. -/
theorem c8_childRegion :
    (∀ child parent : TileCoord,
      (getChildRegionInParent child parent = none ↔ child.z < parent.z)) ∧
    (∀ (child parent : TileCoord) (d : Nat), parentIterTile child d = some parent →
      ∃ r, getChildRegionInParent child parent = some r ∧
        r.width = (2 : ℚ) ^ (parent.z - child.z) ∧
        r.height = (2 : ℚ) ^ (parent.z - child.z) ∧
        0 ≤ r.x ∧ r.x < 1 ∧ 0 ≤ r.y ∧ r.y < 1) := by
  constructor
  · intro child parent
    unfold getChildRegionInParent
    dsimp only
    split
    · rename_i hlt
      constructor
      · intro _
        omega
      · intro _
        rfl
    · rename_i hge
      constructor
      · intro hcon
        cases hcon
      · intro hlt
        omega
  · intro child parent d hpar
    obtain ⟨hx, hy, hz⟩ := parentIterTile_spec hpar
    have hge : ¬(child.z - parent.z < 0) := by omega
    have htn : (child.z - parent.z).toNat = d := by omega
    unfold getChildRegionInParent
    rw [if_neg hge]
    refine ⟨_, rfl, ?_, ?_, ?_, ?_, ?_, ?_⟩
    · dsimp only
      rw [htn, show parent.z - child.z = -(d : Int) by omega, zpow_neg, zpow_natCast,
        one_div]
    · dsimp only
      rw [htn, show parent.z - child.z = -(d : Int) by omega, zpow_neg, zpow_natCast,
        one_div]
    · dsimp only
      rw [htn, hx, iterHalf_eq_floor, Int.self_sub_floor]
      exact Int.fract_nonneg _
    · dsimp only
      rw [htn, hx, iterHalf_eq_floor, Int.self_sub_floor]
      exact Int.fract_lt_one _
    · dsimp only
      rw [htn, hy, iterHalf_eq_floor, Int.self_sub_floor]
      exact Int.fract_nonneg _
    · dsimp only
      rw [htn, hy, iterHalf_eq_floor, Int.self_sub_floor]
      exact Int.fract_lt_one _

/-- C8 counterexample: `parent = (x 5, y 0, z 0)` is not an ancestor of
`child = (x 0, y 0, z 1)` at any depth, yet `getChildRegionInParent` returns
a region rather than none — with offset `x = −5`, outside the parent's unit
square. -/
theorem c8_childRegion_counterexample :
    (¬∃ d : Nat, parentIterTile { x := 0, y := 0, z := 1 } d =
        some { x := 5, y := 0, z := 0 }) ∧
    getChildRegionInParent { x := 0, y := 0, z := 1 } { x := 5, y := 0, z := 0 } =
      some { x := -5, y := 0, width := 1 / 2, height := 1 / 2 } := by
  constructor
  · rintro ⟨d, hd⟩
    have hz := (parentIterTile_spec hd).2.2
    dsimp only at hz
    have hd1 : d = 1 := by omega
    subst hd1
    revert hd
    decide
  · unfold getChildRegionInParent
    norm_num [TileRegion.mk.injEq]

/-! ## Projection round trip (C9) -/

theorem ORIGIN_SHIFT_pos : 0 < ORIGIN_SHIFT := by
  unfold ORIGIN_SHIFT
  positivity

/-- C9: round-trip projection — modelled over the reals, for
`lng ∈ [−180, 180]` and `lat ∈ [−85.0511, 85.0511]`,
`webMercatorToWGS84 ∘ wgs84ToWebMercator` returns the input exactly (hence
certainly within `1e−9`). -/
theorem c9_projection_roundtrip (lng lat : ℝ) (_h1 : -180 ≤ lng) (_h2 : lng ≤ 180)
    (h3 : -85.0511 ≤ lat) (h4 : lat ≤ 85.0511) :
    webMercatorToWGS84 (wgs84ToWebMercator lng lat).1 (wgs84ToWebMercator lng lat).2 =
      (lng, lat) := by
  have hpi : (0 : ℝ) < Real.pi := Real.pi_pos
  have hS : ORIGIN_SHIFT ≠ 0 := ne_of_gt ORIGIN_SHIFT_pos
  have hθpos : 0 < (90 + lat) * Real.pi / 360 := by
    apply div_pos
    · apply mul_pos _ hpi
      nlinarith
    · norm_num
  have hθlt : (90 + lat) * Real.pi / 360 < Real.pi / 2 := by
    rw [div_lt_div_iff₀ (by norm_num) (by norm_num)]
    nlinarith
  have htan : 0 < Real.tan ((90 + lat) * Real.pi / 360) :=
    Real.tan_pos_of_pos_of_lt_pi_div_two hθpos hθlt
  unfold webMercatorToWGS84 wgs84ToWebMercator
  dsimp only
  rw [Prod.mk.injEq]
  constructor
  · field_simp
    ring
  ·
    have hy : Real.log (Real.tan (((90 + lat) * Real.pi) / 360)) / (Real.pi / 180) *
          ORIGIN_SHIFT / 180 / ORIGIN_SHIFT * Real.pi =
        Real.log (Real.tan (((90 + lat) * Real.pi) / 360)) := by
      field_simp
      ring
    rw [hy, Real.exp_log htan, Real.arctan_tan (by linarith) hθlt]
    field_simp

/-- C9 witness: the round trip at `(lng, lat) = (0, 0)`. -/
theorem c9_projection_roundtrip_witness :
    webMercatorToWGS84 (wgs84ToWebMercator 0 0).1 (wgs84ToWebMercator 0 0).2 =
      ((0 : ℝ), (0 : ℝ)) :=
  c9_projection_roundtrip 0 0 (by norm_num) (by norm_num) (by norm_num) (by norm_num)

/-! ## ProcessViewChange at an exact viewpoint (C3) -/

theorem lngLatToTile_zero : lngLatToTile 0 0 0 = { x := 0, y := 0, z := 0 } := by
  have hx : ⌊((0 : ℝ) + 180) / 360 * ((2 : ℝ) ^ (0 : Int))⌋ = 0 := by
    rw [zpow_zero, mul_one, show ((0 : ℝ) + 180) / 360 = 1 / 2 by norm_num,
      Int.floor_eq_zero_iff, Set.mem_Ico]
    constructor <;> norm_num
  have hy : ⌊((1 - Real.arsinh (Real.tan ((0 : ℝ) * Real.pi / 180)) / Real.pi) / 2) *
      ((2 : ℝ) ^ (0 : Int))⌋ = 0 := by
    rw [show (0 : ℝ) * Real.pi / 180 = 0 by ring, Real.tan_zero, Real.arsinh_zero,
      zero_div, zpow_zero, mul_one, show ((1 : ℝ) - 0) / 2 = 1 / 2 by norm_num,
      Int.floor_eq_zero_iff, Set.mem_Ico]
    constructor <;> norm_num
  unfold lngLatToTile
  dsimp only
  rw [TileCoord.mk.injEq]
  exact ⟨hx, hy, rfl⟩

theorem getViewportCenterTile_zero :
    getViewportCenterTile boundsZero 0 = { x := 0, y := 0, z := 0 } := by
  unfold getViewportCenterTile boundsZero
  dsimp only
  rw [show ((0 : ℝ) + 0) / 2 = 0 by norm_num]
  exact lngLatToTile_zero

theorem getVisibleTiles_zero :
    getVisibleTiles boundsZero 0 = [{ x := 0, y := 0, z := 0 }] := by
  unfold getVisibleTiles boundsZero
  dsimp only
  rw [lngLatToTile_zero]
  decide

theorem prioritizeTiles_single :
    prioritizeTiles [{ x := 0, y := 0, z := 0 }] { x := 0, y := 0, z := 0 } =
      [{ coord := { x := 0, y := 0, z := 0 }, key := "0/0/0", distance := 0 }] := by
  unfold prioritizeTiles
  simp [List.mergeSort]
  decide

/-- C3 demonstration at the failing input: the loader `stF` is at generation
1 and holds a `PENDING` record for `"0/0/0"` left at generation 0 (as after
a mid-flight zoom change); `processViewChange` over the all-zero viewport at
zoom 0 appends `"0/0/0"` to the queue but leaves the existing record at
generation 0 ≠ 1 — not the current generation the claim requires (and
`processQueue` would therefore skip the key as stale). -/
theorem c3_processViewChange_stale_record :
    (processViewChange boundsZero 0 stF).loadQueue = ["0/0/0"] ∧
    (processViewChange boundsZero 0 stF).loadGeneration = 1 ∧
    (mapLookup (processViewChange boundsZero 0 stF).tiles "0/0/0").map
        (fun t => (t.state, t.generation)) = some (TileState.pending, 0) ∧
    (mapLookup (processViewChange boundsZero 0 stF).tiles "0/0/0").map
        (fun t => t.generation) ≠
      some (processViewChange boundsZero 0 stF).loadGeneration := by
  have hpv : processViewChange boundsZero 0 stF =
      enqueueTiles
        [{ coord := { x := 0, y := 0, z := 0 }, key := "0/0/0", distance := 0 }] stF := by
    unfold processViewChange
    rw [getVisibleTiles_zero, getViewportCenterTile_zero]
    dsimp only
    rw [prioritizeTiles_single]
  rw [hpv]
  decide
